import Mathlib

/-!
Shallow embedding of `cronjobs.go` from db-journey/cronjobs.

The package schedules database jobs read from files.  Each file must carry a
first line matching the regular expression `^.*cron:\s+(.*)\n`; the captured
group is handed to the cron library as a schedule spec, and the whole file
content is executed through an abstract database driver on every firing.
Outcomes are reported as `Run` records through a buffered channel of
capacity 128, drained by a logger goroutine.

External collaborators (the robfig cron spec parser and the database driver)
are modelled as function parameters; the code of the repository itself is
translated definition by definition below.
-/

namespace Cronjobs

/-- Run mirrors the Go struct `Run`: the outcome record of one job firing.
Go `error` values are modelled as `Option String` (`none` = nil error),
`time.Duration` as `Nat`. -/
structure Run where
  Name : String
  Error : Option String
  Duration : Nat
  deriving DecidableEq, Repr

/-- goSpace models the Go regexp character class `\s`, which for RE2 is
exactly the set tab, newline, form feed, carriage return, space. -/
def goSpace (c : Char) : Bool :=
  c = ' ' || c = '\t' || c = '\n' || c = '\x0c' || c = '\r'

/-- dotStarNewline matches the regexp fragment `(.*)\n` at the head of the
list: `.` never matches a newline, so the capture runs to the first newline
at or after the current position, which must exist. -/
def dotStarNewline : List Char → Option (List Char)
  | [] => none
  | c :: rest =>
    if c = '\n' then some [] else (dotStarNewline rest).map (fun l => c :: l)

/-- spaceCont is the backtracking continuation of `\s+(.*)\n` once at least
one whitespace character has been consumed: greedily consume further
whitespace, falling back to `(.*)\n` at the present position. -/
def spaceCont : List Char → Option (List Char)
  | [] => none
  | c :: rest =>
    if goSpace c then
      match spaceCont rest with
      | some cap => some cap
      | none => dotStarNewline (c :: rest)
    else dotStarNewline (c :: rest)

/-- spacePlusRest matches the regexp fragment `\s+(.*)\n` at the head of the
list, returning the captured group. -/
def spacePlusRest : List Char → Option (List Char)
  | [] => none
  | c :: rest => if goSpace c then spaceCont rest else none

/-- cronTail matches the regexp fragment `cron:\s+(.*)\n` at the head of the
list. -/
def cronTail (l : List Char) : Option (List Char) :=
  if l.take 5 = [ 'c', 'r', 'o', 'n', ':' ] then spacePlusRest (l.drop 5)
  else none

/-- dotStarCron matches `.*cron:\s+(.*)\n` at the head of the list with Go's
leftmost-first (greedy, backtracking) semantics: `.*` cannot cross a newline
and prefers to consume as much as possible. -/
def dotStarCron : List Char → Option (List Char)
  | [] => none
  | c :: rest =>
    if c = '\n' then cronTail (c :: rest)
    else
      match dotStarCron rest with
      | some cap => some cap
      | none => cronTail (c :: rest)

/-- cronMatch models `cronRE.FindStringSubmatch(content)` for the anchored
pattern `cronRE = ^.*cron:\s+(.*)\n`: `some spec` when the pattern matches
(the Go code then has `len(match) = 2` and `spec = match[1]`), `none` when
it does not (`len(match) < 2`). -/
def cronMatch (content : String) : Option String :=
  (dotStarCron content.data).map fun l => ⟨l⟩

/-- dropAfterDot, applied to the reversed character list of a file name,
drops the characters after the last dot together with the dot itself. -/
def dropAfterDot : List Char → List Char
  | [] => []
  | c :: rest => if c = '.' then rest else dropAfterDot rest

/-- trimExt models `strings.TrimSuffix(name, filepath.Ext(name))`: the file
name with the suffix starting at the final dot removed, or unchanged when
there is no dot. -/
def trimExt (name : String) : String :=
  if name.data.contains '.' then ⟨(dropAfterDot name.data.reverse).reverse⟩
  else name

/-- Job is one registered cron entry: the name derived from the file name,
the spec text handed to `cron.AddFunc`, and the full file content that the
closure `runFunc` captures and hands to `driver.Execute`. -/
structure Job where
  name : String
  spec : String
  content : String
  deriving DecidableEq, Repr

/-- RunChan models the Go channel `runs chan *Run`: a bounded FIFO buffer
with a capacity and a closed flag. -/
structure RunChan where
  cap : Nat
  buf : List Run
  closed : Bool
  deriving DecidableEq, Repr

/-- SendResult is the outcome of a Go channel send: the value is buffered,
or the sender blocks on a full buffer, or sending on a closed channel
panics. -/
inductive SendResult where
  | sent (c : RunChan) : SendResult
  | blocked : SendResult
  | panicked : SendResult
  deriving DecidableEq, Repr

/-- sendRun models `s.runs <- r`: panic on a closed channel, buffer the
value when there is room, otherwise block the sender until space appears;
a value is never dropped. -/
def sendRun (c : RunChan) (r : Run) : SendResult :=
  if c.closed then .panicked
  else if c.buf.length < c.cap then .sent { c with buf := c.buf ++ [r] }
  else .blocked

/-- Scheduler models the Go struct `scheduler`: the cron entry list (the
state `cron.New()` accumulates through `AddFunc`) and the result channel.
The driver and the pluggable `Logger` field are threaded as explicit
function parameters instead of stored fields. -/
structure Scheduler where
  entries : List Job
  runs : RunChan

/-- New models `New(driver)`: an empty cron schedule and a result channel
built by `make(chan *Run, 128)`. -/
def New : Scheduler :=
  { entries := [], runs := { cap := 128, buf := [], closed := false } }

/-- CronFile is one directory entry as `ReadFiles` sees it: its base name
and the result of `ioutil.ReadFile` (`Except.error` carries the read
error's message). -/
structure CronFile where
  name : String
  data : Except String String
  deriving Repr

/-- processFile is the body of the `ReadFiles` loop for a single file:
read it, extract the cron spec with `cronRE`, derive the job name by
trimming the extension, and hand the spec to `cron.AddFunc` (modelled by
the external parser `parseErr`, `none` meaning the spec is valid).  On
success the registered `Job` is returned; on any failure the error that
`ReadFiles` returns is. -/
def processFile (parseErr : String → Option String) (dirname : String)
    (f : CronFile) : Except String Job :=
  match f.data with
  | .error e => .error e
  | .ok content =>
    match cronMatch content with
    | none =>
      .error ("File " ++ dirname ++ "/" ++ f.name ++
        ": Cron spec (\"[...]cron: [spec]\") was not found")
    | some spec =>
      match parseErr spec with
      | some e => .error ("File " ++ dirname ++ "/" ++ f.name ++ ": " ++ e)
      | none =>
        .ok { name := trimExt f.name, spec := spec, content := content }

/-- readFilesLoop is the `for _, f := range ioFiles` loop of `ReadFiles`:
each successfully processed file appends its job to the schedule; the first
failure returns the error at once, leaving earlier jobs registered and
later files unprocessed. -/
def readFilesLoop (parseErr : String → Option String) (dirname : String)
    (s : Scheduler) : List CronFile → Scheduler × Option String
  | [] => (s, none)
  | f :: rest =>
    match processFile parseErr dirname f with
    | .error e => (s, some e)
    | .ok j =>
      readFilesLoop parseErr dirname
        { s with entries := s.entries ++ [j] } rest

/-- ReadFiles models `(*scheduler).ReadFiles(dirname)` once the directory
listing is in hand, returning the mutated scheduler together with the Go
error value (`none` = nil). -/
def ReadFiles (parseErr : String → Option String) (dirname : String)
    (s : Scheduler) (files : List CronFile) : Scheduler × Option String :=
  readFilesLoop parseErr dirname s files

/-- regPrefix lists the jobs that one call to `readFilesLoop` actually
appends: those of the longest prefix of files that all process
successfully. -/
def regPrefix (parseErr : String → Option String) (dirname : String) :
    List CronFile → List Job
  | [] => []
  | f :: rest =>
    match processFile parseErr dirname f with
    | .error _ => []
    | .ok j => j :: regPrefix parseErr dirname rest

/-- regError is the error value one call to `readFilesLoop` returns: the
error of the first failing file, or `none` when every file processes. -/
def regError (parseErr : String → Option String) (dirname : String) :
    List CronFile → Option String
  | [] => none
  | f :: rest =>
    match processFile parseErr dirname f with
    | .error e => some e
    | .ok _ => regError parseErr dirname rest

/-- jobsOf lists the job of every file in the list that processes
successfully, ignoring failures. -/
def jobsOf (parseErr : String → Option String) (dirname : String)
    (files : List CronFile) : List Job :=
  files.filterMap fun f => (processFile parseErr dirname f).toOption

/-- runFunc models the closure registered with `cron.AddFunc`: one firing
executes the captured full file content through the driver and builds the
`Run` record from the captured job name, the error `driver.Execute`
returned, and the measured duration (the wall clock is abstracted as the
`dur` argument). -/
def runFunc (driver : String → Option String) (j : Job) (dur : Nat) : Run :=
  { Name := j.name, Error := driver j.content, Duration := dur }

/-- sendAll folds `sendRun` over a list of runs, as the producers of
successive firings do; it returns `none` if any send blocked or
panicked. -/
def sendAll (c : RunChan) : List Run → Option RunChan
  | [] => some c
  | r :: rest =>
    match sendRun c r with
    | .sent c2 => sendAll c2 rest
    | _ => none

/-- loggerLine is the output the default logger emits for one `Run`: the
`Printf` of the name followed by either the error text or `OK`. -/
def loggerLine (r : Run) : String :=
  "Running " ++ r.Name ++ ": " ++
    match r.Error with
    | some e => "error=" ++ e ++ "\n"
    | none => "OK\n"

/-- logger models the default consumer `logger`: `for run := range runs`
receives every run sent before the channel was closed, emits one line per
run, and exits once the channel is closed and drained — embedded here as a
total function over the list of all runs the channel carried. -/
def logger (runs : List Run) : List String :=
  runs.map loggerLine

/-- LifeState is the state of a started scheduler for the lifecycle model:
whether the cron loop still runs, how many dispatched `runFunc` invocations
have executed their job but not yet sent their `Run`, the result channel,
and whether some producer hit a closed channel (a Go panic). -/
structure LifeState where
  running : Bool
  inFlight : Nat
  chan : RunChan
  panicked : Bool
  deriving DecidableEq, Repr

/-- LifeStep is the interleaving semantics of the started scheduler.
`fire` is the cron loop dispatching a job (enabled while running, and only
when `allowFire` — instantiating `allowFire := false` restricts to traces
in which no job ever fires).  `send` and `sendClosed` are a producer
performing `s.runs <- run`: it appends to an open channel with room, and
panics on a closed one, which is possible because `Stop` runs
`s.Cron.Stop()` and then `close(s.runs)` without waiting for in-flight
producers (the context `Cron.Stop` returns is discarded).  `stop` is that
`Stop` call. -/
inductive LifeStep (allowFire : Bool) : LifeState → LifeState → Prop
  | fire (st : LifeState) :
      allowFire = true → st.running = true →
      LifeStep allowFire st { st with inFlight := st.inFlight + 1 }
  | send (st : LifeState) (r : Run) :
      0 < st.inFlight → st.chan.closed = false →
      st.chan.buf.length < st.chan.cap →
      LifeStep allowFire st
        { st with inFlight := st.inFlight - 1,
                  chan := { st.chan with buf := st.chan.buf ++ [r] } }
  | sendClosed (st : LifeState) :
      0 < st.inFlight → st.chan.closed = true →
      LifeStep allowFire st
        { st with inFlight := st.inFlight - 1, panicked := true }
  | stop (st : LifeState) :
      st.running = true →
      LifeStep allowFire st
        { st with running := false,
                  chan := { st.chan with closed := true } }

/-- Reach is reachability through any number of lifecycle steps. -/
def Reach (allowFire : Bool) : LifeState → LifeState → Prop :=
  Relation.ReflTransGen (LifeStep allowFire)

/-- startedState is the scheduler state right after `New` and `Start`:
running, nothing in flight, the fresh channel open and empty. -/
def startedState : LifeState :=
  { running := true, inFlight := 0, chan := New.runs, panicked := false }

/-- parseDaily is a concrete instance of the external cron spec parser used
on concrete inputs: it accepts exactly the spec text rendered as at-daily in
the package doc comment. -/
def parseDaily : String → Option String :=
  fun s => if s = "@daily" then none else some "bad spec"

/-- noErrDriver is a concrete driver whose Execute always succeeds. -/
def noErrDriver : String → Option String := fun _ => none

/-- boomDriver is a concrete driver whose Execute always fails with the
fixed error text boom. -/
def boomDriver : String → Option String := fun _ => some "boom"

/-- fGood is a job file with a valid marker line and a parsable spec. -/
def fGood : CronFile :=
  { name := "good.sql", data := .ok "-- cron: @daily\nSELECT 1;\n" }

/-- fBadMarker is a job file with no cron marker line. -/
def fBadMarker : CronFile :=
  { name := "bad.sql", data := .ok "SELECT 2;\n" }

/-- fBadSpec is a job file whose marker line carries an unparsable spec. -/
def fBadSpec : CronFile :=
  { name := "badspec.sql", data := .ok "-- cron: nonsense\nSELECT 3;\n" }

/-- fDup1 and fDup2 are two job files whose base names coincide, so both
register under the job name a. -/
def fDup1 : CronFile :=
  { name := "a.sql", data := .ok "-- cron: @daily\nX\n" }

/-- fDup2 is the second file of the duplicate-name pair. -/
def fDup2 : CronFile :=
  { name := "a.txt", data := .ok "-- cron: @daily\nY\n" }

/-- goodJob is the job that registering fGood produces. -/
def goodJob : Job :=
  { name := "good", spec := "@daily",
    content := "-- cron: @daily\nSELECT 1;\n" }

/-- okRun is a concrete successful run record. -/
def okRun : Run := { Name := "good", Error := none, Duration := 1 }

/-- crashState is the lifecycle state reached when a producer dispatched
before Stop performs its send after the channel is closed: Go panics on the
send into the closed channel. -/
def crashState : LifeState :=
  { running := false, inFlight := 0,
    chan := { cap := 128, buf := [], closed := true }, panicked := true }

/-- stoppedState is the lifecycle state after stopping the scheduler before
any job has fired. -/
def stoppedState : LifeState :=
  { running := false, inFlight := 0,
    chan := { cap := 128, buf := [], closed := true }, panicked := false }

/-! Helper lemmas: characterization of the registration loop. -/

theorem readFilesLoop_eq (p : String → Option String) (d : String)
    (s : Scheduler) (files : List CronFile) :
    readFilesLoop p d s files =
      ({ s with entries := s.entries ++ regPrefix p d files },
        regError p d files) := by
  induction files generalizing s with
  | nil => simp [readFilesLoop, regPrefix, regError]
  | cons f rest ih =>
    simp only [readFilesLoop, regPrefix, regError]
    cases h : processFile p d f with
    | error e => simp
    | ok j => simp [ih, List.append_assoc]

theorem regPrefix_mem (p : String → Option String) (d : String)
    (files : List CronFile) (j : Job) (hj : j ∈ regPrefix p d files) :
    ∃ g, g ∈ files ∧ processFile p d g = .ok j := by
  induction files with
  | nil => simp [regPrefix] at hj
  | cons f rest ih =>
    simp only [regPrefix] at hj
    cases h : processFile p d f with
    | error e => simp [h] at hj
    | ok j2 =>
      simp only [h] at hj
      rcases List.mem_cons.mp hj with rfl | hmem
      · exact ⟨f, List.mem_cons_self f rest, h⟩
      · obtain ⟨g, hg, hok⟩ := ih hmem
        exact ⟨g, List.mem_cons_of_mem f hg, hok⟩

theorem regError_ne_none (p : String → Option String) (d : String)
    (files : List CronFile) (f : CronFile) (e : String) (hmem : f ∈ files)
    (hf : processFile p d f = .error e) :
    regError p d files ≠ none := by
  induction files with
  | nil => simp at hmem
  | cons g rest ih =>
    simp only [regError]
    cases h : processFile p d g with
    | error e2 => simp
    | ok j =>
      rcases List.mem_cons.mp hmem with rfl | hmem2
      · rw [hf] at h; cases h
      · exact ih hmem2

theorem regError_first (p : String → Option String) (d : String)
    (pre : List CronFile) (f : CronFile) (rest : List CronFile) (e : String)
    (hpre : ∀ g ∈ pre, ∃ j, processFile p d g = .ok j)
    (hf : processFile p d f = .error e) :
    regError p d (pre ++ f :: rest) = some e := by
  induction pre with
  | nil => simp [regError, hf]
  | cons g pre2 ih =>
    obtain ⟨j, hj⟩ := hpre g (List.mem_cons_self g pre2)
    simp only [List.cons_append, regError, hj]
    exact ih fun g2 hg2 => hpre g2 (List.mem_cons_of_mem g hg2)

theorem regPrefix_first (p : String → Option String) (d : String)
    (pre : List CronFile) (f : CronFile) (rest : List CronFile) (e : String)
    (hpre : ∀ g ∈ pre, ∃ j, processFile p d g = .ok j)
    (hf : processFile p d f = .error e) :
    regPrefix p d (pre ++ f :: rest) = jobsOf p d pre := by
  induction pre with
  | nil => simp [regPrefix, hf, jobsOf]
  | cons g pre2 ih =>
    obtain ⟨j, hj⟩ := hpre g (List.mem_cons_self g pre2)
    simp only [List.cons_append, regPrefix, hj, jobsOf, List.filterMap_cons,
      Except.toOption]
    exact congrArg (j :: ·) (ih fun g2 hg2 => hpre g2 (List.mem_cons_of_mem g hg2))

theorem regPrefix_all_ok (p : String → Option String) (d : String)
    (files : List CronFile)
    (hok : ∀ g ∈ files, ∃ j, processFile p d g = .ok j) :
    regPrefix p d files = jobsOf p d files ∧ regError p d files = none := by
  induction files with
  | nil => simp [regPrefix, regError, jobsOf]
  | cons g rest ih =>
    obtain ⟨j, hj⟩ := hok g (List.mem_cons_self g rest)
    obtain ⟨h1, h2⟩ := ih fun g2 hg2 => hok g2 (List.mem_cons_of_mem g hg2)
    refine ⟨?_, ?_⟩
    · simp [regPrefix, hj, jobsOf, List.filterMap_cons, Except.toOption, h1,
        jobsOf.eq_def]
    · simp [regError, hj, h2]

/-! Helper lemmas: what a successful `cronRE` match requires of the input. -/

theorem dotStarNewline_newline (l : List Char) (cap : List Char)
    (h : dotStarNewline l = some cap) : '\n' ∈ l := by
  induction l generalizing cap with
  | nil => simp [dotStarNewline] at h
  | cons c rest ih =>
    simp only [dotStarNewline] at h
    by_cases hc : c = '\n'
    · subst hc; exact List.mem_cons_self _ _
    · rw [if_neg hc] at h
      rcases Option.map_eq_some'.mp h with ⟨a, ha, -⟩
      exact List.mem_cons_of_mem _ (ih a ha)

theorem spaceCont_newline (l : List Char) (cap : List Char)
    (h : spaceCont l = some cap) : '\n' ∈ l := by
  induction l generalizing cap with
  | nil => simp [spaceCont] at h
  | cons c rest ih =>
    simp only [spaceCont] at h
    by_cases hc : goSpace c
    · rw [if_pos hc] at h
      cases hs : spaceCont rest with
      | some cap2 => exact List.mem_cons_of_mem _ (ih cap2 hs)
      | none => rw [hs] at h; exact dotStarNewline_newline _ _ h
    · rw [if_neg hc] at h
      exact dotStarNewline_newline _ _ h

theorem spacePlusRest_newline (l : List Char) (cap : List Char)
    (h : spacePlusRest l = some cap) : '\n' ∈ l := by
  cases l with
  | nil => simp [spacePlusRest] at h
  | cons c rest =>
    simp only [spacePlusRest] at h
    by_cases hc : goSpace c
    · rw [if_pos hc] at h
      exact List.mem_cons_of_mem _ (spaceCont_newline _ _ h)
    · rw [if_neg hc] at h; cases h

theorem cronTail_eq (l : List Char) (cap : List Char)
    (h : cronTail l = some cap) :
    l.take 5 = [ 'c', 'r', 'o', 'n', ':' ] ∧ '\n' ∈ l.drop 5 := by
  simp only [cronTail] at h
  by_cases h5 : l.take 5 = [ 'c', 'r', 'o', 'n', ':' ]
  · rw [if_pos h5] at h
    exact ⟨h5, spacePlusRest_newline _ _ h⟩
  · rw [if_neg h5] at h; cases h

theorem cronTail_newline (l : List Char) (cap : List Char)
    (h : cronTail l = some cap) : '\n' ∈ l := by
  obtain ⟨-, hd⟩ := cronTail_eq l cap h
  exact List.mem_of_mem_drop hd

theorem dotStarCron_newline (l : List Char) (cap : List Char)
    (h : dotStarCron l = some cap) : '\n' ∈ l := by
  induction l generalizing cap with
  | nil => simp [dotStarCron] at h
  | cons c rest ih =>
    simp only [dotStarCron] at h
    by_cases hc : c = '\n'
    · subst hc; exact List.mem_cons_self _ _
    · rw [if_neg hc] at h
      cases hs : dotStarCron rest with
      | some cap2 => exact List.mem_cons_of_mem _ (ih cap2 hs)
      | none => rw [hs] at h; exact cronTail_newline _ _ h

theorem dotStarCron_marker (l : List Char) (cap : List Char)
    (h : dotStarCron l = some cap) :
    ∃ pre post, l = pre ++ 'c' :: 'r' :: 'o' :: 'n' :: ':' :: post ∧
      '\n' ∉ pre := by
  induction l generalizing cap with
  | nil => simp [dotStarCron] at h
  | cons c rest ih =>
    simp only [dotStarCron] at h
    by_cases hc : c = '\n'
    · rw [if_pos hc] at h
      obtain ⟨h5, -⟩ := cronTail_eq _ _ h
      simp only [List.take_succ_cons] at h5
      have : c = 'c' := (List.cons_eq_cons.mp h5).1
      rw [hc] at this
      cases this
    · rw [if_neg hc] at h
      cases hs : dotStarCron rest with
      | some cap2 =>
        obtain ⟨pre, post, hl, hpre⟩ := ih cap2 hs
        refine ⟨c :: pre, post, ?_, ?_⟩
        · rw [List.cons_append, hl]
        · intro hmem
          rcases List.mem_cons.mp hmem with h1 | h2
          · exact hc h1.symm
          · exact hpre h2
      | none =>
        rw [hs] at h
        obtain ⟨h5, -⟩ := cronTail_eq _ _ h
        refine ⟨[], (c :: rest).drop 5, ?_, by simp⟩
        conv_lhs => rw [← List.take_append_drop 5 (c :: rest)]
        rw [h5]
        rfl

theorem cronMatch_has_newline (content : String) (spec : String)
    (h : cronMatch content = some spec) : '\n' ∈ content.data := by
  rcases Option.map_eq_some'.mp h with ⟨l, hl, -⟩
  exact dotStarCron_newline _ _ hl

theorem cronMatch_marker (content : String) (spec : String)
    (h : cronMatch content = some spec) :
    ∃ pre post,
      content.data = pre ++ 'c' :: 'r' :: 'o' :: 'n' :: ':' :: post ∧
      '\n' ∉ pre := by
  rcases Option.map_eq_some'.mp h with ⟨l, hl, -⟩
  exact dotStarCron_marker _ _ hl

/-! Helper lemmas: successful registration, the send pipeline, and the
lifecycle step relation. -/

theorem processFile_ok (p : String → Option String) (d : String)
    (f : CronFile) (j : Job) (h : processFile p d f = .ok j) :
    ∃ content spec, f.data = .ok content ∧ cronMatch content = some spec ∧
      p spec = none ∧
      j = { name := trimExt f.name, spec := spec, content := content } := by
  unfold processFile at h
  split at h
  next e hd => cases h
  next content hd =>
    split at h
    next hm => cases h
    next spec hm =>
      split at h
      next e hp => cases h
      next hp =>
        exact ⟨content, spec, hd, hm, hp, (Except.ok.inj h).symm⟩

theorem sendAll_open_room (c : RunChan) (rs : List Run)
    (hopen : c.closed = false) (hroom : c.buf.length + rs.length ≤ c.cap) :
    sendAll c rs = some { c with buf := c.buf ++ rs } := by
  induction rs generalizing c with
  | nil => simp [sendAll]
  | cons r rest ih =>
    have hlt : c.buf.length < c.cap := by
      simp only [List.length_cons] at hroom
      omega
    have hstep : sendRun c r = .sent { c with buf := c.buf ++ [r] } := by
      simp [sendRun, hopen, hlt]
    have hih := ih { c with buf := c.buf ++ [r] } hopen
      (by simp only [List.length_append, List.length_cons, List.length_nil] at hroom ⊢; omega)
    simp only [sendAll, hstep, hih, List.append_assoc, List.singleton_append]

theorem lifeStep_closed_mono (b : Bool) (s1 s2 : LifeState)
    (h : LifeStep b s1 s2) (hc : s1.chan.closed = true) :
    s2.chan.closed = true := by
  cases h <;> simp_all

theorem lifeStep_close_needs_running (b : Bool) (s1 s2 : LifeState)
    (h : LifeStep b s1 s2) (h1 : s1.chan.closed = false)
    (h2 : s2.chan.closed = true) : s1.running = true ∧ s2.running = false := by
  cases h <;> simp_all

theorem reach_closed_not_running (b : Bool) (st : LifeState)
    (h : Reach b startedState st) :
    st.chan.closed = true → st.running = false := by
  induction h with
  | refl => intro hc; simp [startedState, New] at hc
  | tail hr hstep ih =>
    intro hc
    cases hstep with
    | fire hb hrun => exact absurd hrun (by simp [ih hc])
    | send r hin hop hroom => exact absurd (hop.symm.trans hc) (by decide)
    | sendClosed hin hcl => exact ih hcl
    | stop hrun => rfl

theorem reach_nofire_safe (st : LifeState)
    (h : Reach false startedState st) :
    st.chan.buf = [] ∧ st.panicked = false ∧ st.inFlight = 0 := by
  induction h with
  | refl => simp [startedState, New]
  | tail hr hstep ih =>
    obtain ⟨h1, h2, h3⟩ := ih
    cases hstep with
    | fire hb hrun => cases hb
    | send r hin hop hroom => exact absurd (h3 ▸ hin) (lt_irrefl 0)
    | sendClosed hin hcl => exact absurd (h3 ▸ hin) (lt_irrefl 0)
    | stop hrun => exact ⟨h1, h2, h3⟩

/-! Claim theorems. -/

/-- C1, counterexample: with a marker-less file listed before a valid file,
`ReadFiles` reports the failure but the valid file is NOT registered — the
loop returns on the first error, so registration of the other jobs in the
directory IS aborted, contrary to the claim. -/
theorem c1_counterexample :
    (ReadFiles parseDaily "jobs" New [fBadMarker, fGood]).2 ≠ none ∧
    (ReadFiles parseDaily "jobs" New [fBadMarker, fGood]).1.entries = [] := by
  exact ⟨by decide, rfl⟩

/-- C1, amended: when one file fails (unreadable, missing marker, or
unparsable spec), `ReadFiles` returns that file's error immediately: jobs
from the files listed before it remain registered, and no file after it is
registered. -/
theorem c1_first_failure_aborts (p : String → Option String) (d : String)
    (s : Scheduler) (pre : List CronFile) (f : CronFile)
    (rest : List CronFile) (e : String)
    (hpre : ∀ g ∈ pre, ∃ j, processFile p d g = .ok j)
    (hf : processFile p d f = .error e) :
    ReadFiles p d s (pre ++ f :: rest) =
      ({ s with entries := s.entries ++ jobsOf p d pre }, some e) := by
  rw [ReadFiles, readFilesLoop_eq, regError_first p d pre f rest e hpre hf,
    regPrefix_first p d pre f rest e hpre hf]

/-- C1 witness: a valid file followed by a marker-less file leaves exactly
the valid file's job registered and returns the marker error. -/
theorem c1_first_failure_aborts_witness :
    ReadFiles parseDaily "jobs" New [fGood, fBadMarker] =
      ({ New with entries := [goodJob] },
        some "File jobs/bad.sql: Cron spec (\"[...]cron: [spec]\") was not found") :=
  c1_first_failure_aborts parseDaily "jobs" New [fGood] fBadMarker []
    "File jobs/bad.sql: Cron spec (\"[...]cron: [spec]\") was not found"
    (by intro g hg; rw [List.mem_singleton] at hg; subst hg; exact ⟨goodJob, rfl⟩)
    rfl

/-- C2: a reached file whose extracted spec text the cron parser rejects
makes `ReadFiles` return a non-nil error — the error of that very file when
every file before it is valid — and no job whatever originates from that
file. -/
theorem c2_invalid_spec_rejected (p : String → Option String) (d : String)
    (s : Scheduler) (pre : List CronFile) (f : CronFile)
    (rest : List CronFile) (content spec msg : String)
    (hdata : f.data = .ok content)
    (hmatch : cronMatch content = some spec)
    (hparse : p spec = some msg) :
    (ReadFiles p d s (pre ++ f :: rest)).2 ≠ none ∧
    (∀ j ∈ (ReadFiles p d s (pre ++ f :: rest)).1.entries,
      j ∈ s.entries ∨
        ∃ g, g ∈ pre ++ f :: rest ∧ g ≠ f ∧ processFile p d g = .ok j) ∧
    ((∀ g ∈ pre, ∃ j, processFile p d g = .ok j) →
      (ReadFiles p d s (pre ++ f :: rest)).2 =
        some ("File " ++ d ++ "/" ++ f.name ++ ": " ++ msg)) := by
  have hf : processFile p d f =
      .error ("File " ++ d ++ "/" ++ f.name ++ ": " ++ msg) := by
    simp [processFile, hdata, hmatch, hparse]
  refine ⟨?_, ?_, ?_⟩
  · rw [ReadFiles, readFilesLoop_eq]
    exact regError_ne_none p d (pre ++ f :: rest) f _
      (List.mem_append_right pre (List.mem_cons_self f rest)) hf
  · intro j hj
    rw [ReadFiles, readFilesLoop_eq] at hj
    simp only [List.mem_append] at hj
    rcases hj with hj | hj
    · exact Or.inl hj
    · obtain ⟨g, hg, hok⟩ := regPrefix_mem p d _ j hj
      refine Or.inr ⟨g, hg, ?_, hok⟩
      intro hgf
      rw [hgf, hf] at hok
      cases hok
  · intro hpre
    rw [ReadFiles, readFilesLoop_eq]
    exact regError_first p d pre f rest _ hpre hf

/-- C2 witness: the unparsable-spec file placed first yields a non-nil
registration error. -/
theorem c2_invalid_spec_rejected_witness :
    (ReadFiles parseDaily "jobs" New ([] ++ fBadSpec :: [fGood])).2 ≠ none :=
  (c2_invalid_spec_rejected parseDaily "jobs" New [] fBadSpec [fGood]
    "-- cron: nonsense\nSELECT 3;\n" "nonsense" "bad spec" rfl rfl rfl).1

/-- C3, counterexample: two files sharing the base name a both register
with no error — the code performs no duplicate-name check, so a second job
under the same name IS silently added, contrary to the claim. -/
theorem c3_counterexample :
    (ReadFiles parseDaily "jobs" New [fDup1, fDup2]).2 = none ∧
    (ReadFiles parseDaily "jobs" New [fDup1, fDup2]).1.entries.map Job.name =
      ["a", "a"] := by
  exact ⟨rfl, rfl⟩

/-- C3, amended: registration never inspects job names: whenever every file
processes successfully, `ReadFiles` returns no error and appends one job per
file, regardless of any base-name collisions. -/
theorem c3_no_duplicate_check (p : String → Option String) (d : String)
    (s : Scheduler) (files : List CronFile)
    (hok : ∀ g ∈ files, ∃ j, processFile p d g = .ok j) :
    (ReadFiles p d s files).2 = none ∧
    (ReadFiles p d s files).1.entries = s.entries ++ jobsOf p d files := by
  obtain ⟨h1, h2⟩ := regPrefix_all_ok p d files hok
  rw [ReadFiles, readFilesLoop_eq]
  exact ⟨h2, by rw [h1]⟩

/-- C3 witness: both duplicate-named files are appended, names a and a. -/
theorem c3_no_duplicate_check_witness :
    (ReadFiles parseDaily "jobs" New [fDup1, fDup2]).1.entries =
      New.entries ++ jobsOf parseDaily "jobs" [fDup1, fDup2] :=
  (c3_no_duplicate_check parseDaily "jobs" New [fDup1, fDup2]
    (by
      intro g hg
      rcases List.mem_cons.mp hg with rfl | hg2
      · exact ⟨⟨"a", "@daily", "-- cron: @daily\nX\n"⟩, rfl⟩
      · rw [List.mem_singleton] at hg2
        subst hg2
        exact ⟨⟨"a", "@daily", "-- cron: @daily\nY\n"⟩, rfl⟩)).2

/-- C4: every firing of a registered job produces exactly one `Run` —
carrying the job's name (the source file name with its extension removed),
the error value of the driver's Execute call on the job's content, and the
measured duration — and sending the runs of N firings into an open sink
with room delivers exactly those N runs, appended in order: none lost, none
duplicated. -/
theorem c4_one_run_per_firing (p : String → Option String) (d : String)
    (driver : String → Option String)
    (firings : List (CronFile × Job × Nat)) (c : RunChan)
    (hreg : ∀ x ∈ firings, processFile p d x.1 = .ok x.2.1)
    (hopen : c.closed = false)
    (hroom : c.buf.length + firings.length ≤ c.cap) :
    (firings.map fun x => runFunc driver x.2.1 x.2.2).length =
      firings.length ∧
    sendAll c (firings.map fun x => runFunc driver x.2.1 x.2.2) =
      some { c with
        buf := c.buf ++ firings.map fun x => runFunc driver x.2.1 x.2.2 } ∧
    ∀ x ∈ firings, runFunc driver x.2.1 x.2.2 =
      { Name := trimExt x.1.name, Error := driver x.2.1.content,
        Duration := x.2.2 } := by
  refine ⟨List.length_map _ _, ?_, ?_⟩
  · exact sendAll_open_room c _ hopen (by rw [List.length_map]; exact hroom)
  · intro x hx
    obtain ⟨content, spec, hd, hm, hp, hj⟩ :=
      processFile_ok p d x.1 x.2.1 (hreg x hx)
    rw [hj]
    rfl

/-- C4 witness: one firing of the job registered from fGood delivers
exactly one run into the fresh sink. -/
theorem c4_one_run_per_firing_witness :
    sendAll New.runs
        ([(fGood, goodJob, 5)].map fun x => runFunc noErrDriver x.2.1 x.2.2) =
      some { New.runs with
        buf := New.runs.buf ++
          [(fGood, goodJob, 5)].map fun x => runFunc noErrDriver x.2.1 x.2.2 } :=
  (c4_one_run_per_firing parseDaily "jobs" noErrDriver [(fGood, goodJob, 5)]
    New.runs
    (by intro x hx; rw [List.mem_singleton] at hx; subst hx; exact rfl)
    rfl (by decide)).2.1

/-- C5: the `Run` built by `runFunc` stores the driver's error verbatim: a
non-nil error of the Execute call appears unchanged in the Error field, and
a successful call yields a nil Error field. -/
theorem c5_error_preserved (driver : String → Option String) (j : Job)
    (dur : Nat) :
    (∀ e, driver j.content = some e → (runFunc driver j dur).Error = some e) ∧
    (driver j.content = none → (runFunc driver j dur).Error = none) := by
  exact ⟨fun e he => by simp [runFunc, he], fun hn => by simp [runFunc, hn]⟩

/-- C5 witness: a driver failing with boom yields a run whose Error is
exactly boom, and the always-succeeding driver yields a nil Error. -/
theorem c5_error_preserved_witness :
    (runFunc boomDriver goodJob 7).Error = some "boom" ∧
    (runFunc noErrDriver goodJob 7).Error = none :=
  ⟨(c5_error_preserved boomDriver goodJob 7).1 "boom" rfl,
    (c5_error_preserved noErrDriver goodJob 7).2 rfl⟩

/-- C6: the sink `New` creates has capacity exactly 128 and starts open;
a send to an open sink already holding 128 pending runs (capacity 128)
blocks the producer, and every successful send appends the run to the
buffer — no run is dropped. -/
theorem c6_bounded_sink :
    New.runs.cap = 128 ∧ New.runs.closed = false ∧
    (∀ c r, c.closed = false → c.cap = 128 → c.buf.length = 128 →
      sendRun c r = .blocked) ∧
    (∀ c r c2, sendRun c r = .sent c2 →
      c2.buf = c.buf ++ [r] ∧ c2.cap = c.cap ∧ c2.closed = c.closed) := by
  refine ⟨rfl, rfl, ?_, ?_⟩
  · intro c r hopen hcap hlen
    simp [sendRun, hopen, hcap, hlen]
  · intro c r c2 h
    unfold sendRun at h
    split at h
    · cases h
    · split at h
      · exact ⟨by cases h; rfl, by cases h; rfl, by cases h; rfl⟩
      · cases h

/-- C6 witness: a full sink of 128 runs blocks the next send, and a send to
the fresh sink appends the run. -/
theorem c6_bounded_sink_witness :
    sendRun { cap := 128, buf := List.replicate 128 okRun, closed := false }
        okRun = .blocked :=
  c6_bounded_sink.2.2.1
    { cap := 128, buf := List.replicate 128 okRun, closed := false } okRun
    rfl rfl (List.length_replicate 128 okRun)

/-- C7: the default consumer emits exactly one line per received `Run` —
line i reports run i — and the line holds the job name followed by OK for a
nil error, or by the error text for a non-nil one; it consumes the entire
sequence the channel carried before close and then exits (totality of
`logger`). -/
theorem c7_logger_lines (runs : List Run) :
    (logger runs).length = runs.length ∧
    (∀ i, (logger runs).get? i = (runs.get? i).map loggerLine) ∧
    (∀ r, r.Error = none →
      loggerLine r = "Running " ++ r.Name ++ ": " ++ "OK\n") ∧
    (∀ r e, r.Error = some e →
      loggerLine r = "Running " ++ r.Name ++ ": " ++ ("error=" ++ e ++ "\n")) := by
  refine ⟨List.length_map _ _, ?_, ?_, ?_⟩
  · intro i
    simp [logger]
  · intro r hr
    simp [loggerLine, hr]
  · intro r e hr
    simp [loggerLine, hr]

/-- C7 witness: a successful run of job good logs the OK line, a boom
failure logs the error line. -/
theorem c7_logger_lines_witness :
    loggerLine okRun = "Running " ++ okRun.Name ++ ": " ++ "OK\n" ∧
    loggerLine (runFunc boomDriver goodJob 7) =
      "Running " ++ (runFunc boomDriver goodJob 7).Name ++ ": " ++
        ("error=" ++ "boom" ++ "\n") :=
  ⟨(c7_logger_lines [okRun]).2.2.1 okRun rfl,
    (c7_logger_lines [okRun]).2.2.2 (runFunc boomDriver goodJob 7) "boom" rfl⟩

/-- C8, counterexample: `Stop` runs `Cron.Stop` and `close(s.runs)` without
waiting for in-flight producers, so the trace fire, stop, send reaches a
state in which a producer wrote to the closed channel (a Go panic) —
contrary to the claim that the channel is closed only after every in-flight
execution has completed its send or is guaranteed never to write again. -/
theorem c8_counterexample :
    Reach true startedState crashState ∧ crashState.panicked = true := by
  constructor
  · have h1 : LifeStep true startedState
        { running := true, inFlight := 1,
          chan := { cap := 128, buf := [], closed := false },
          panicked := false } :=
      LifeStep.fire startedState rfl rfl
    have h2 : LifeStep true
        { running := true, inFlight := 1,
          chan := { cap := 128, buf := [], closed := false },
          panicked := false }
        { running := false, inFlight := 1,
          chan := { cap := 128, buf := [], closed := true },
          panicked := false } :=
      LifeStep.stop _ rfl
    have h3 : LifeStep true
        { running := false, inFlight := 1,
          chan := { cap := 128, buf := [], closed := true },
          panicked := false } crashState :=
      LifeStep.sendClosed _ (by decide) rfl
    exact Relation.ReflTransGen.head h1
      (Relation.ReflTransGen.head h2 (Relation.ReflTransGen.single h3))
  · rfl

/-- C8, amended: `Stop` closes the channel at most once (a close step
requires the running flag, which it clears, and a closed channel never
reopens), and stopping before any job has fired yields zero run results and
no panic; but the close does not wait for in-flight producers, so a
producer dispatched before `Stop` may hit the closed channel (see the
counterexample). -/
theorem c8_close_discipline :
    (∀ st, Reach false startedState st →
      st.chan.buf = [] ∧ st.panicked = false) ∧
    (∀ b s1 s2, LifeStep b s1 s2 → s1.chan.closed = true →
      s2.chan.closed = true) ∧
    (∀ b s1 s2, LifeStep b s1 s2 → s1.chan.closed = false →
      s2.chan.closed = true → s1.running = true ∧ s2.running = false) ∧
    (∀ b st, Reach b startedState st → st.chan.closed = true →
      st.running = false) := by
  refine ⟨?_, lifeStep_closed_mono, lifeStep_close_needs_running,
    reach_closed_not_running⟩
  intro st h
  exact ⟨(reach_nofire_safe st h).1, (reach_nofire_safe st h).2.1⟩

/-- C8 witness: stopping the fresh scheduler before any firing reaches a
state with an empty buffer and no panic. -/
theorem c8_close_discipline_witness :
    stoppedState.chan.buf = [] ∧ stoppedState.panicked = false :=
  c8_close_discipline.1 stoppedState
    (Relation.ReflTransGen.single (LifeStep.stop startedState rfl))

/-- C9: `cronRE` is anchored at the start of the content and demands a
newline after the spec: a content without any newline (in particular a
single marker line lacking its final newline) never matches, any match
forces the cron marker to begin before the first newline, and a file whose
content does not match is rejected with the Cron-spec-not-found error;
concrete checks confirm acceptance of a first-line marker and rejection of
a newline-less or second-line marker. -/
theorem c9_marker_first_line :
    (∀ content : String, '\n' ∉ content.data → cronMatch content = none) ∧
    (∀ content spec, cronMatch content = some spec → '\n' ∈ content.data) ∧
    (∀ content spec, cronMatch content = some spec →
      ∃ pre post,
        content.data = pre ++ 'c' :: 'r' :: 'o' :: 'n' :: ':' :: post ∧
        '\n' ∉ pre) ∧
    (∀ (p : String → Option String) (d : String) (f : CronFile) content,
      f.data = .ok content → cronMatch content = none →
      processFile p d f = .error ("File " ++ d ++ "/" ++ f.name ++
        ": Cron spec (\"[...]cron: [spec]\") was not found")) ∧
    cronMatch "-- cron: @daily\nSELECT 1;\n" = some "@daily" ∧
    cronMatch "-- cron: @daily" = none ∧
    cronMatch "SELECT 1;\n-- cron: @daily\n" = none := by
  refine ⟨?_, cronMatch_has_newline, cronMatch_marker, ?_, rfl, rfl, rfl⟩
  · intro content hn
    cases h : cronMatch content with
    | none => rfl
    | some spec => exact absurd (cronMatch_has_newline content spec h) hn
  · intro p d f content hd hm
    simp [processFile, hd, hm]

/-- C9 witness: the marker line without a final newline is rejected. -/
theorem c9_marker_first_line_witness :
    cronMatch "-- cron: @daily" = none :=
  c9_marker_first_line.1 "-- cron: @daily" (by decide)

/-- C10: the statement a registered job hands to the driver's Execute on
each firing is the entire content of its source file — the marker comment
line included — not only the portion after the marker line. -/
theorem c10_full_content_executed (p : String → Option String) (d : String)
    (f : CronFile) (content : String) (j : Job)
    (hdata : f.data = .ok content) (hok : processFile p d f = .ok j) :
    j.content = content ∧
    ∀ (driver : String → Option String) (dur : Nat),
      (runFunc driver j dur).Error = driver content := by
  obtain ⟨content2, spec, hd2, hm, hp, hj⟩ := processFile_ok p d f j hok
  rw [hdata] at hd2
  obtain rfl : content = content2 := Except.ok.inj hd2
  rw [hj]
  exact ⟨rfl, fun driver dur => rfl⟩

/-- C10 witness: the job registered from fGood executes the whole file
content, marker line included. -/
theorem c10_full_content_executed_witness :
    goodJob.content = "-- cron: @daily\nSELECT 1;\n" :=
  (c10_full_content_executed parseDaily "jobs" fGood
    "-- cron: @daily\nSELECT 1;\n" goodJob rfl rfl).1

end Cronjobs
